import Mathlib

/-!
Verification of the layout engine and main-loop call sites of the todo
terminal application (source: src/mods/ui.rs and src/main.rs).

The Rust code is shallowly embedded: `Vec2`, `LayoutKind` and `Layout`
mirror the structures of ui.rs; machine integers (`i32`, `usize`) are
modelled as `Int`/`Nat`, with Rust's truncated division `/` and
remainder `%` rendered as `Int.tdiv`/`Int.tmod`.  The builder `UI` is a
stack of `Layout` trees (head = top of stack); operations that `panic!`
or `expect` in Rust return `none`.  The layout tree is rebuilt from
scratch every frame and no reference escapes construction, so the
`Rc<RefCell<…>>` sharing of the Rust code is faithfully represented by
pure state passing: while a scope is open it lives only on the stack,
and `end_layout` moves it into its parent's child list.
-/

namespace Todors

/-- `LayoutKind` (ui.rs:12-15). -/
inductive LayoutKind : Type where
  | Vert
  | Horz
deriving DecidableEq, Repr

/-- `Vec2` (ui.rs:17-21): a 2D integer vector; `i32` fields become `Int`. -/
@[ext]
structure Vec2 where
  x : Int
  y : Int
deriving DecidableEq, Repr

/-- `Vec2::new` (ui.rs:24-26). -/
def Vec2.new (x y : Int) : Vec2 := ⟨x, y⟩

/-- Componentwise addition, `impl Add for Vec2` (ui.rs:42-50). -/
instance : Add Vec2 := ⟨fun a b => ⟨a.x + b.x, a.y + b.y⟩⟩

/-- Componentwise subtraction, `impl Sub for Vec2` (ui.rs:52-60). -/
instance : Sub Vec2 := ⟨fun a b => ⟨a.x - b.x, a.y - b.y⟩⟩

/-- Componentwise multiplication, `impl Mul for Vec2` (ui.rs:62-70). -/
instance : Mul Vec2 := ⟨fun a b => ⟨a.x * b.x, a.y * b.y⟩⟩

@[simp] theorem Vec2.add_x (a b : Vec2) : (a + b).x = a.x + b.x := rfl

@[simp] theorem Vec2.add_y (a b : Vec2) : (a + b).y = a.y + b.y := rfl

@[simp] theorem Vec2.sub_x (a b : Vec2) : (a - b).x = a.x - b.x := rfl

@[simp] theorem Vec2.sub_y (a b : Vec2) : (a - b).y = a.y - b.y := rfl

@[simp] theorem Vec2.mul_x (a b : Vec2) : (a * b).x = a.x * b.x := rfl

@[simp] theorem Vec2.mul_y (a b : Vec2) : (a * b).y = a.y * b.y := rfl

@[simp] theorem Vec2.new_x (x y : Int) : (Vec2.new x y).x = x := rfl

@[simp] theorem Vec2.new_y (x y : Int) : (Vec2.new x y).y = y := rfl

/-- `Vec2::div_rem` (ui.rs:28-39): componentwise truncated quotient and
remainder, exactly Rust's `/` and `%` on `i32`. -/
def Vec2.div_rem (a b : Vec2) : Vec2 × Vec2 :=
  (⟨a.x.tdiv b.x, a.y.tdiv b.y⟩, ⟨a.x.tmod b.x, a.y.tmod b.y⟩)

/-- `Layout` (ui.rs:82-88).  `children : Vec<LayoutRef>` becomes a plain
`List Layout`; fields in source order `kind, pos, size, max_size, children`. -/
inductive Layout : Type where
  | mk (kind : LayoutKind) (pos : Vec2) (size : Vec2) (max_size : Vec2)
      (children : List Layout)

def Layout.kind : Layout → LayoutKind
  | .mk k _ _ _ _ => k

def Layout.pos : Layout → Vec2
  | .mk _ p _ _ _ => p

def Layout.size : Layout → Vec2
  | .mk _ _ s _ _ => s

def Layout.max_size : Layout → Vec2
  | .mk _ _ _ m _ => m

def Layout.children : Layout → List Layout
  | .mk _ _ _ _ cs => cs

@[simp] theorem Layout.kind_mk (k p s m cs) : (Layout.mk k p s m cs).kind = k := rfl

@[simp] theorem Layout.pos_mk (k p s m cs) : (Layout.mk k p s m cs).pos = p := rfl

@[simp] theorem Layout.size_mk (k p s m cs) : (Layout.mk k p s m cs).size = s := rfl

@[simp] theorem Layout.max_size_mk (k p s m cs) :
    (Layout.mk k p s m cs).max_size = m := rfl

@[simp] theorem Layout.children_mk (k p s m cs) :
    (Layout.mk k p s m cs).children = cs := rfl

/-- `Layout::new` (ui.rs:91-99): `size` starts at `Vec2::default()` and
`children` empty. -/
def Layout.new (kind : LayoutKind) (pos : Vec2) (max_size : Vec2) : Layout :=
  .mk kind pos ⟨0, 0⟩ max_size []

/-- `Layout::available_size` (ui.rs:113-119): divides `max_size` by
`children.len() + 1` along the stacking axis, returning quotient and
remainder. -/
def Layout.available_size (l : Layout) : Vec2 × Vec2 :=
  let d : Int := l.children.length + 1
  match l.kind with
  | .Horz => l.max_size.div_rem (Vec2.new d 1)
  | .Vert => l.max_size.div_rem (Vec2.new 1 d)

/-- `Layout::available_pos` (ui.rs:101-111). -/
def Layout.available_pos (l : Layout) : Vec2 :=
  let child_size := l.available_size.1
  match l.kind with
  | .Horz => l.pos + Vec2.new (min l.size.x child_size.x) 0
  | .Vert => l.pos + l.size * Vec2.new 0 1

/-- `Layout::add_widget` (ui.rs:121-132): sum along the stacking axis,
max along the cross axis. -/
def Layout.add_widget (l : Layout) (size : Vec2) : Layout :=
  match l with
  | .mk k p s m cs =>
    match k with
    | .Horz => .mk k p (Vec2.new (s.x + size.x) (max s.y size.y)) m cs
    | .Vert => .mk k p (Vec2.new (max s.x size.x) (s.y + size.y)) m cs

mutual

/-- `Layout::resize` (ui.rs:134-143).  Note the source computes
`child_size` from the *current* (pre-assignment) `max_size`, clamps only
the `x` component of `size`, and then recursively resizes every child
with that `child_size`. -/
def Layout.resize : Layout → Vec2 → Layout
  | .mk k p s m cs, size =>
    let child_size := (Layout.mk k p s m cs).available_size.1
    .mk k p (Vec2.new (min s.x child_size.x) s.y) size
      (Layout.resizeAll cs child_size)

/-- The `for child in &self.children { child.borrow_mut().resize(child_size) }`
loop of `Layout::resize` (ui.rs:140-142). -/
def Layout.resizeAll : List Layout → Vec2 → List Layout
  | [], _ => []
  | c :: cs, size => Layout.resize c size :: Layout.resizeAll cs size

end

/-- `Layout::add_child` (ui.rs:145-158): resizes self (with unchanged
`max_size`, which shrinks every existing child's share), accounts the
new child as a widget of extent `(child.max_size.x, child.size.y)`,
pushes it, and reports `children[len-2].size - child_size` (the previous
sibling, i.e. the last element before the push) when a previous sibling
exists. -/
def Layout.add_child (l : Layout) (child : Layout) : Layout × Option Vec2 :=
  let child_size := child.size
  let wsize := Vec2.new child.max_size.x child_size.y
  let l1 := l.resize l.max_size
  let l2 := l1.add_widget wsize
  let diff := l2.children.getLast?.map (fun prev => prev.size - child_size)
  (Layout.mk l2.kind l2.pos l2.size l2.max_size (l2.children ++ [child]), diff)

/-- `UI::begin` (ui.rs:170-175): `assert!(self.stack.is_empty())` is
modelled as `none` on a non-empty stack.  The stack's head is its top. -/
def UI.begin (stack : List Layout) (pos : Vec2) (kind : LayoutKind)
    (max_size : Vec2) : Option (List Layout) :=
  match stack with
  | [] => some [Layout.new kind pos max_size]
  | _ => none

/-- `UI::begin_layout` (ui.rs:177-190): the child scope's capacity is
`max_size + rem` from the parent's `available_size`, its origin the
parent's `available_pos`; `expect` on an empty stack is `none`. -/
def UI.begin_layout (stack : List Layout) (kind : LayoutKind) :
    Option (List Layout) :=
  match stack with
  | [] => none
  | layout :: rest =>
    let (max_size, rem) := layout.available_size
    let child := Layout.new kind layout.available_pos (max_size + rem)
    some (child :: layout :: rest)

/-- `UI::br` (ui.rs:192-199): advances the current scope by one row. -/
def UI.br (stack : List Layout) : Option (List Layout) :=
  match stack with
  | [] => none
  | layout :: rest => some (layout.add_widget (Vec2.new 0 1) :: rest)

/-- The rows of blank cells drawn by `UI::end_layout` (ui.rs:280-289):
`rows` iterations, each writing `width` spaces starting at `pos` (row i
at `pos.y + i`). -/
structure BlankFill where
  rows : Int
  pos : Vec2
  width : Int
deriving DecidableEq, Repr

/-- The `if let Some(Vec2 { x: _, y }) = size_diff` block of
`UI::end_layout` (ui.rs:280-289): when the size difference exists and
has `y > 0`, that many rows are blanked at the closed child's
`available_pos`, `child.max_size.x` cells wide. -/
def blankOf (child : Layout) : Option Vec2 → Option BlankFill
  | some d =>
    if 0 < d.y then some ⟨d.y, child.available_pos, child.max_size.x⟩
    else none
  | none => none

/-- `UI::end_layout` (ui.rs:268-290): pops the finished child, attaches
it to the new top via `add_child`, and blanks freed rows per `blankOf`.
Both `expect`s (empty stack, or no parent below) are `none`. -/
def UI.end_layout (stack : List Layout) :
    Option (List Layout × Option BlankFill) :=
  match stack with
  | child :: parent :: rest =>
    let res := parent.add_child child
    some (res.1 :: rest, blankOf child res.2)
  | _ => none

/-- `UI::end` (ui.rs:292-296): pops the top of the stack; the only
failure (`expect`) is an empty stack.  (`end` is a Lean keyword, hence
the name `endRoot`.) -/
def UI.endRoot (stack : List Layout) : Option (List Layout) :=
  match stack with
  | [] => none
  | _ :: rest => some rest

/-- The builder operations a frame may issue between `UI::begin` and
`UI::end`: opening a child scope, closing it, and the pure
layout-state effect of `UI::br` (widgets that only advance `size`). -/
inductive Op : Type where
  | beginL (kind : LayoutKind)
  | endL
  | brk
deriving DecidableEq, Repr

/-- One builder operation applied to the stack; `none` models the panics. -/
def UI.step (stack : List Layout) : Op → Option (List Layout)
  | .beginL kind => UI.begin_layout stack kind
  | .endL => (UI.end_layout stack).map Prod.fst
  | .brk => UI.br stack

/-- Runs a sequence of builder operations. -/
def UI.exec : List Layout → List Op → Option (List Layout)
  | s, [] => some s
  | s, op :: ops => (UI.step s op).bind (fun s2 => UI.exec s2 ops)

/-- The component of a vector along a node's stacking (main) axis. -/
def axisVal : LayoutKind → Vec2 → Int
  | .Horz, v => v.x
  | .Vert, v => v.y

/-- The capacity `UI::begin_layout` gives a new child of `p`:
quotient plus remainder of `p.available_size`. -/
def childCap (p : Layout) : Vec2 := p.available_size.1 + p.available_size.2

/-- Sum of the children's capacities along the node's own axis. -/
def sumChildCaps (r : Layout) : Int :=
  (r.children.map (fun c => axisVal r.kind c.max_size)).sum

/-- Sum of the children's occupied extents along axis `k`. -/
def childOccupiedSum (k : LayoutKind) (r : Layout) : Int :=
  (r.children.map (fun c => axisVal k c.size)).sum

end Todors

namespace Todors

theorem Layout.resize_kind (l : Layout) (s : Vec2) : (l.resize s).kind = l.kind := by
  cases l with | mk k p sz m cs => rfl

theorem Layout.resize_max_size (l : Layout) (s : Vec2) : (l.resize s).max_size = s := by
  cases l with | mk k p sz m cs => rfl

theorem Layout.resize_size_x (l : Layout) (s : Vec2) :
    (l.resize s).size.x = min l.size.x l.available_size.1.x := by
  cases l with | mk k p sz m cs => rfl

theorem Layout.resize_size_y (l : Layout) (s : Vec2) : (l.resize s).size.y = l.size.y := by
  cases l with | mk k p sz m cs => rfl

theorem Layout.resize_children (l : Layout) (s : Vec2) :
    (l.resize s).children = Layout.resizeAll l.children l.available_size.1 := by
  cases l with | mk k p sz m cs => rfl

theorem Layout.resizeAll_eq_map (cs : List Layout) (s : Vec2) :
    Layout.resizeAll cs s = cs.map (fun c => c.resize s) := by
  induction cs with
  | nil => rfl
  | cons c cs ih => simp [Layout.resizeAll, ih]

theorem Layout.getLast?_resizeAll (cs : List Layout) (s : Vec2) :
    (Layout.resizeAll cs s).getLast? = cs.getLast?.map (fun c => c.resize s) := by
  induction cs with
  | nil => rfl
  | cons c cs ih =>
    cases cs with
    | nil => rfl
    | cons c2 cs2 =>
      rw [show Layout.resizeAll (c :: c2 :: cs2) s
          = Layout.resize c s :: Layout.resize c2 s :: Layout.resizeAll cs2 s from rfl]
      rw [List.getLast?_cons_cons, List.getLast?_cons_cons,
        show Layout.resize c2 s :: Layout.resizeAll cs2 s
          = Layout.resizeAll (c2 :: cs2) s from rfl, ih]

theorem Layout.add_widget_kind (l : Layout) (w : Vec2) :
    (l.add_widget w).kind = l.kind := by
  cases l with | mk k p s m cs => cases k <;> rfl

theorem Layout.add_widget_max_size (l : Layout) (w : Vec2) :
    (l.add_widget w).max_size = l.max_size := by
  cases l with | mk k p s m cs => cases k <;> rfl

theorem Layout.add_widget_children (l : Layout) (w : Vec2) :
    (l.add_widget w).children = l.children := by
  cases l with | mk k p s m cs => cases k <;> rfl

theorem Layout.add_child_kind (l c : Layout) : (l.add_child c).1.kind = l.kind := by
  cases l with | mk k p s m cs => cases k <;> rfl

theorem Layout.add_child_max_size (l c : Layout) :
    (l.add_child c).1.max_size = l.max_size := by
  cases l with | mk k p s m cs => cases k <;> rfl

theorem Layout.add_child_children (l c : Layout) :
    (l.add_child c).1.children = Layout.resizeAll l.children l.available_size.1 ++ [c] := by
  cases l with | mk k p s m cs => cases k <;> rfl

theorem Layout.add_child_snd (l c : Layout) :
    (l.add_child c).2 =
      (Layout.resizeAll l.children l.available_size.1).getLast?.map
        (fun prev => prev.size - c.size) := by
  cases l with | mk k p s m cs => cases k <;> rfl

theorem axisVal_add (k : LayoutKind) (a b : Vec2) :
    axisVal k (a + b) = axisVal k a + axisVal k b := by
  cases k <;> rfl

theorem axisVal_avail_fst (l : Layout) :
    axisVal l.kind l.available_size.1 =
      (axisVal l.kind l.max_size).tdiv ((l.children.length : Int) + 1) := by
  cases l with | mk k p s m cs => cases k <;> rfl

theorem axisVal_avail_snd (l : Layout) :
    axisVal l.kind l.available_size.2 =
      (axisVal l.kind l.max_size).tmod ((l.children.length : Int) + 1) := by
  cases l with | mk k p s m cs => cases k <;> rfl

theorem sum_resizeAll (k : LayoutKind) (cs : List Layout) (s : Vec2) :
    ((Layout.resizeAll cs s).map (fun c => axisVal k c.max_size)).sum
      = (cs.length : Int) * axisVal k s := by
  induction cs with
  | nil => simp [Layout.resizeAll]
  | cons c cs ih =>
    simp only [Layout.resizeAll, List.map_cons, List.sum_cons, ih,
      Layout.resize_max_size, List.length_cons]
    push_cast
    ring

end Todors

namespace Todors

/-- The even-split bookkeeping that holds of every intermediate builder
stack (head = top): every open scope's capacity is exactly the
`childCap` its parent computed for it, and the bottom (root) scope's
children's capacities along its axis sum to its own capacity. -/
def StackInv : List Layout → Prop
  | [] => True
  | [r] => r.children ≠ [] → sumChildCaps r = axisVal r.kind r.max_size
  | c :: p :: rest => c.max_size = childCap p ∧ StackInv (p :: rest)

theorem StackInv_singleton (r : Layout) :
    StackInv [r] = (r.children ≠ [] → sumChildCaps r = axisVal r.kind r.max_size) := rfl

theorem StackInv_cons_cons (c p : Layout) (rest : List Layout) :
    StackInv (c :: p :: rest) = (c.max_size = childCap p ∧ StackInv (p :: rest)) := rfl

theorem add_child_rootSum (p c : Layout) (h : c.max_size = childCap p) :
    sumChildCaps (p.add_child c).1 = axisVal (p.add_child c).1.kind (p.add_child c).1.max_size := by
  unfold sumChildCaps
  rw [Layout.add_child_children, Layout.add_child_kind, Layout.add_child_max_size,
    List.map_append, List.sum_append, sum_resizeAll, axisVal_avail_fst]
  simp only [List.map_cons, List.map_nil, List.sum_cons, List.sum_nil, add_zero]
  rw [h]
  unfold childCap
  rw [axisVal_add, axisVal_avail_fst, axisVal_avail_snd]
  have hid := Int.tdiv_add_tmod (axisVal p.kind p.max_size) ((p.children.length : Int) + 1)
  linear_combination hid

/-- `max_size` and `kind` of the bottom (root) element of the stack. -/
def lastStat (s : List Layout) : Option (Vec2 × LayoutKind) :=
  s.getLast?.map (fun l => (l.max_size, l.kind))

theorem step_StackInv {s s' : List Layout} {op : Op}
    (h : UI.step s op = some s') (hInv : StackInv s) : StackInv s' := by
  cases op with
  | beginL k =>
    cases s with
    | nil => simp [UI.step, UI.begin_layout] at h
    | cons p rest =>
      simp only [UI.step, UI.begin_layout, Option.some.injEq] at h
      subst h
      rw [StackInv_cons_cons]
      exact ⟨rfl, hInv⟩
  | brk =>
    cases s with
    | nil => simp [UI.step, UI.br] at h
    | cons l rest =>
      simp only [UI.step, UI.br, Option.some.injEq] at h
      subst h
      cases rest with
      | nil =>
        rw [StackInv_singleton] at hInv ⊢
        intro hne
        rw [Layout.add_widget_children] at hne
        unfold sumChildCaps
        rw [Layout.add_widget_children, Layout.add_widget_kind, Layout.add_widget_max_size]
        exact hInv hne
      | cons q rest' =>
        rw [StackInv_cons_cons] at hInv ⊢
        exact ⟨by rw [Layout.add_widget_max_size]; exact hInv.1, hInv.2⟩
  | endL =>
    cases s with
    | nil => simp [UI.step, UI.end_layout] at h
    | cons c rest0 =>
      cases rest0 with
      | nil => simp [UI.step, UI.end_layout] at h
      | cons p rest =>
        simp only [UI.step, UI.end_layout, Option.map_some', Option.some.injEq] at h
        subst h
        rw [StackInv_cons_cons] at hInv
        obtain ⟨hc, hrest⟩ := hInv
        cases rest with
        | nil =>
          rw [StackInv_singleton]
          intro _
          exact add_child_rootSum p c hc
        | cons q rest' =>
          rw [StackInv_cons_cons] at hrest ⊢
          exact ⟨by rw [Layout.add_child_max_size]; exact hrest.1, hrest.2⟩

theorem step_lastStat {s s' : List Layout} {op : Op}
    (h : UI.step s op = some s') : lastStat s' = lastStat s := by
  cases op with
  | beginL k =>
    cases s with
    | nil => simp [UI.step, UI.begin_layout] at h
    | cons p rest =>
      simp only [UI.step, UI.begin_layout, Option.some.injEq] at h
      subst h
      unfold lastStat
      rw [List.getLast?_cons_cons]
  | brk =>
    cases s with
    | nil => simp [UI.step, UI.br] at h
    | cons l rest =>
      simp only [UI.step, UI.br, Option.some.injEq] at h
      subst h
      cases rest with
      | nil =>
        unfold lastStat
        simp [Layout.add_widget_max_size, Layout.add_widget_kind]
      | cons q rest' =>
        unfold lastStat
        rw [List.getLast?_cons_cons, List.getLast?_cons_cons]
  | endL =>
    cases s with
    | nil => simp [UI.step, UI.end_layout] at h
    | cons c rest0 =>
      cases rest0 with
      | nil => simp [UI.step, UI.end_layout] at h
      | cons p rest =>
        simp only [UI.step, UI.end_layout, Option.map_some', Option.some.injEq] at h
        subst h
        cases rest with
        | nil =>
          unfold lastStat
          simp [Layout.add_child_max_size, Layout.add_child_kind]
        | cons q rest' =>
          unfold lastStat
          rw [List.getLast?_cons_cons, List.getLast?_cons_cons, List.getLast?_cons_cons]

theorem exec_StackInv : ∀ (ops : List Op) (s s' : List Layout),
    UI.exec s ops = some s' → StackInv s → StackInv s' := by
  intro ops
  induction ops with
  | nil =>
    intro s s' h hInv
    simp only [UI.exec, Option.some.injEq] at h
    subst h
    exact hInv
  | cons op ops ih =>
    intro s s' h hInv
    rw [UI.exec] at h
    cases hstep : UI.step s op with
    | none => rw [hstep] at h; simp at h
    | some s2 =>
      rw [hstep] at h
      simp only [Option.some_bind] at h
      exact ih s2 s' h (step_StackInv hstep hInv)

theorem exec_lastStat : ∀ (ops : List Op) (s s' : List Layout),
    UI.exec s ops = some s' → lastStat s' = lastStat s := by
  intro ops
  induction ops with
  | nil =>
    intro s s' h
    simp only [UI.exec, Option.some.injEq] at h
    subst h
    rfl
  | cons op ops ih =>
    intro s s' h
    rw [UI.exec] at h
    cases hstep : UI.step s op with
    | none => rw [hstep] at h; simp at h
    | some s2 =>
      rw [hstep] at h
      simp only [Option.some_bind] at h
      rw [ih s2 s' h, step_lastStat hstep]

end Todors


namespace Todors

/-! ## Remaining embedded code: `UI::edit_label` and the main.rs call sites -/

/-- What `UI::edit_label` draws: the buffer line at `pos` and the
reverse-video cursor cell at `cursorPos`. -/
structure EditLabelRender where
  pos : Vec2
  drawn : List Char
  cursorPos : Vec2
  cursorCell : List Char
deriving DecidableEq, Repr

/-- `UI::edit_label` (ui.rs:242-266).  Strings become `List Char`.  The
buffer block draws `prefix + text + space_fill` at `available_pos` and
adds a `(text.len(), 1)` widget; the cursor block draws
`text.get(cur..=cur).unwrap_or(" ")` at `(pos.x + cur + prefix.len(), pos.y)`.
`(max_size.x as usize).saturating_sub(text.len())` is modelled with
`Int.toNat` and `Nat` subtraction (both saturate at 0). -/
def UI.edit_label (stack : List Layout) (text : List Char) (cur : Nat)
    (pfx : List Char) : Option (List Layout × EditLabelRender) :=
  match stack with
  | [] => none
  | layout :: rest =>
    let pos := layout.available_pos
    let space_fill : List Char :=
      List.replicate (layout.max_size.x.toNat - text.length) ' '
    let drawn := pfx ++ text ++ space_fill
    let layout2 := layout.add_widget (Vec2.new (text.length : Int) 1)
    let cursorCell : List Char :=
      match text.drop cur with
      | [] => [' ']
      | c :: _ => [c]
    some (layout2 :: rest,
      ⟨pos, drawn,
        Vec2.new (pos.x + (cur : Int) + (pfx.length : Int)) pos.y, cursorCell⟩)

/-- Result of `TodoApp::save`.  Modelled from the spec: `TodoApp::save`
lives in mods/todo.rs, which is not under src/; the spec's persistence
interface is `save(path, open_items, done_items) -> success|failure`. -/
inductive SaveResult : Type where
  | ok
  | fail (msg : String)
deriving DecidableEq, Repr

/-- Whether the process terminates normally or aborts with a panic. -/
inductive ProcessOutcome : Type where
  | exited
  | panicked
deriving DecidableEq, Repr

/-- The shutdown path of `main` (src/main.rs:239-241):
`endwin(); app.save(&file_path).unwrap()`.  `Result::unwrap` returns on
`Ok` and aborts the process with a panic on `Err`. -/
def mainShutdown : SaveResult → ProcessOutcome
  | .ok => .exited
  | .fail _ => .panicked

/-- `Mode` (src/main.rs:41-45). -/
inductive Mode : Type where
  | Normal
  | Edit
deriving DecidableEq, Repr

/-- The Edit-mode key dispatch of the main loop (src/main.rs:221-234):
the key is narrowed `key as u8 as char`, i.e. taken modulo 256; a
newline (10) commits via `app.finish_edit()`, whose Boolean result
`finishOk` decides whether the loop returns to Normal; every other key -
escape (27) included - is handed to
`app.edit_item_with(&mut editing_cursor, key)`, which receives only the
cursor and the key and therefore cannot change `mode`. -/
def editModeDispatch (finishOk : Bool) (key : Int) : Mode :=
  if key.emod 256 = 10 then
    if finishOk then Mode.Normal else Mode.Edit
  else Mode.Edit

end Todors

namespace Todors

/-! ## Claim theorems -/

/-- The op sequence refuting C1: a Horz root of capacity (10,10) with two
Vert children, each containing one nested Vert child. -/
def c1cexOps : List Op :=
  [.beginL .Vert, .beginL .Vert, .endL, .endL,
   .beginL .Vert, .beginL .Vert, .endL, .endL]

/-- The root produced by running `c1cexOps` (each child's occupied `x`
extent is 10 resp. 5, their sum 15 exceeding the root capacity 10). -/
def c1cexRoot : Layout :=
  .mk .Horz (Vec2.new 0 0) (Vec2.new 10 0) (Vec2.new 10 10)
    [.mk .Vert (Vec2.new 0 0) (Vec2.new 10 0) (Vec2.new 5 10)
      [.mk .Vert (Vec2.new 0 0) (Vec2.new 0 0) (Vec2.new 10 5) []],
     .mk .Vert (Vec2.new 5 0) (Vec2.new 5 0) (Vec2.new 5 10)
      [.mk .Vert (Vec2.new 5 0) (Vec2.new 0 0) (Vec2.new 5 10) []]]

/-- C1 counterexample: it is NOT the case that for every well-nested
sequence of begin_layout/end_layout (and br) operations under one
begin/end pair, the sum of the root's children's occupied extents along
the root's axis stays within the root's capacity: on a Horz root of
capacity x = 10, two Vert children each holding one nested child end
with occupied x extents 10 and 5, summing to 15 > 10 (`resize` clamps a
Vert child's x only to its own - untightened - Vert share). -/
theorem c1_children_extent_counterexample :
    ¬ (∀ (pos cap : Vec2) (k : LayoutKind) (ops : List Op)
        (s0 : List Layout) (r' : Layout),
        UI.begin [] pos k cap = some s0 → UI.exec s0 ops = some [r'] →
        childOccupiedSum k r' ≤ axisVal k cap) := by
  intro hclaim
  have h := hclaim (Vec2.new 0 0) (Vec2.new 10 10) .Horz c1cexOps
    [Layout.new .Horz (Vec2.new 0 0) (Vec2.new 10 10)] c1cexRoot rfl rfl
  revert h
  decide

/-- C1 (amended): for every well-nested sequence of builder operations
under one begin/end pair, once the root has at least one child, the sum
of the children's ALLOCATED capacities along the root's axis equals the
root's capacity exactly (the even split is lossless); the sum of their
occupied extents, by contrast, can exceed it. -/
theorem c1_root_children_capacity_sum (pos cap : Vec2) (k : LayoutKind)
    (ops : List Op) (s0 : List Layout) (r' : Layout)
    (h0 : UI.begin [] pos k cap = some s0)
    (h : UI.exec s0 ops = some [r'])
    (hne : r'.children ≠ []) :
    sumChildCaps r' = axisVal k cap := by
  have hs0 : s0 = [Layout.new k pos cap] := by
    simp only [UI.begin, Option.some.injEq] at h0
    exact h0.symm
  subst hs0
  have hInv : StackInv [r'] := by
    refine exec_StackInv ops _ _ h ?_
    rw [StackInv_singleton]
    intro hne2
    exact absurd rfl hne2
  have hLast := exec_lastStat ops _ _ h
  have h1 : lastStat [r'] = some (r'.max_size, r'.kind) := rfl
  have h2 : lastStat [Layout.new k pos cap] = some (cap, k) := rfl
  rw [h1, h2, Option.some.injEq, Prod.mk.injEq] at hLast
  obtain ⟨hmax, hkind⟩ := hLast
  rw [StackInv_singleton] at hInv
  rw [hInv hne, hkind, hmax]

/-- The root produced by `[beginL Horz, endL]` from a Vert root of
capacity (7,9): one child of capacity (7,9). -/
def c1wRoot : Layout :=
  .mk .Vert (Vec2.new 0 0) (Vec2.new 7 0) (Vec2.new 7 9)
    [.mk .Horz (Vec2.new 0 0) (Vec2.new 0 0) (Vec2.new 7 9) []]

/-- Witness for `c1_root_children_capacity_sum` at a concrete run. -/
theorem c1_root_children_capacity_sum_witness :
    sumChildCaps c1wRoot = axisVal LayoutKind.Vert (Vec2.new 7 9) :=
  c1_root_children_capacity_sum (Vec2.new 0 0) (Vec2.new 7 9) .Vert
    [.beginL .Horz, .endL] [Layout.new .Vert (Vec2.new 0 0) (Vec2.new 7 9)]
    c1wRoot rfl rfl (by simp [c1wRoot])

/-- C2: `begin_layout` on an open parent `p` with n existing children
pushes a child whose origin is the parent's next available position and
whose capacity is quotient plus remainder of the parent's capacity
(`max_size`, the space remaining to `p` after ancestor splits) divided
by (n + 1) along the parent's axis; the (n + 1) quotient shares plus the
remainder sum exactly to the divided capacity, so no space is lost. -/
theorem c2_begin_layout_even_split (p : Layout) (rest : List Layout)
    (k : LayoutKind) :
    UI.begin_layout (p :: rest) k =
      some (Layout.new k p.available_pos
        (p.available_size.1 + p.available_size.2) :: p :: rest) ∧
    ((p.children.length : Int) + 1) * axisVal p.kind p.available_size.1
        + axisVal p.kind p.available_size.2 = axisVal p.kind p.max_size := by
  refine ⟨rfl, ?_⟩
  rw [axisVal_avail_fst, axisVal_avail_snd]
  exact Int.tdiv_add_tmod _ _

/-- The Vert scope refuting C3: occupied (0,5), capacity (10,10), one
child of capacity (9,9). -/
def c3node : Layout :=
  .mk .Vert (Vec2.new 0 0) (Vec2.new 0 5) (Vec2.new 10 10)
    [.mk .Vert (Vec2.new 0 0) (Vec2.new 0 0) (Vec2.new 9 9) []]

/-- C3 counterexample: resizing `c3node` to capacity (4,4) leaves its
occupied main-axis (y) extent at 5, above the child share derived from
the NEW capacity (4 tdiv 2 = 2): the code clamps only `size.x`, and only
against the share of the pre-resize capacity; likewise the children are
resized with the pre-resize share (10,5), not the new one. -/
theorem c3_resize_counterexample :
    ¬ (axisVal c3node.kind (c3node.resize (Vec2.new 4 4)).size ≤
        axisVal c3node.kind ((c3node.resize (Vec2.new 4 4)).available_size.1)) ∧
    (c3node.resize (Vec2.new 4 4)).children.map Layout.max_size ≠
      [(c3node.resize (Vec2.new 4 4)).available_size.1] := by
  decide

/-- C3 (amended): `resize` stores the new capacity, clamps only the x
component of `occupied` - against the x component of the share computed
from the PRE-resize capacity - leaves `occupied.y` unchanged, and
resizes every existing child with that same pre-resize share. -/
theorem c3_resize_actual (l : Layout) (s : Vec2) :
    (l.resize s).max_size = s ∧
    (l.resize s).size.x = min l.size.x l.available_size.1.x ∧
    (l.resize s).size.y = l.size.y ∧
    (l.resize s).children = l.children.map (fun c => c.resize l.available_size.1) :=
  ⟨Layout.resize_max_size l s, Layout.resize_size_x l s, Layout.resize_size_y l s,
    by rw [Layout.resize_children, Layout.resizeAll_eq_map]⟩

/-- The Horz scope refuting C4: occupied x = 8, capacity x = 10, one
existing child. -/
def c4node : Layout :=
  .mk .Horz (Vec2.new 0 0) (Vec2.new 8 0) (Vec2.new 10 10)
    [.mk .Vert (Vec2.new 0 0) (Vec2.new 0 0) (Vec2.new 5 10) []]

/-- C4 counterexample: for a Horz scope with one child the next position
is clamped by the per-child share (10 tdiv 2 = 5), not by the total
capacity: the code yields origin + (5, 0), the claim predicts
origin + (min(8, 10), 0) = origin + (8, 0). -/
theorem c4_available_pos_counterexample :
    c4node.available_pos ≠
      c4node.pos + Vec2.new (min c4node.size.x c4node.max_size.x) 0 := by
  decide

/-- C4 (amended): for a Horz scope the next position is the origin offset
by `min(occupied.x, capacity.x tdiv (children + 1))` - the clamp is the
current per-child share, not the total capacity; for a Vert scope it is
the origin offset by `occupied.y` rows, as claimed. -/
theorem c4_available_pos_actual (l : Layout) :
    l.available_pos =
      match l.kind with
      | .Horz => l.pos + Vec2.new (min l.size.x l.available_size.1.x) 0
      | .Vert => l.pos + Vec2.new 0 l.size.y := by
  cases l with
  | mk k p s m cs =>
    cases k with
    | Horz => rfl
    | Vert =>
      show p + s * Vec2.new 0 1 = p + Vec2.new 0 s.y
      ext <;> simp

/-- The childless Vert node refuting C5: occupied (8,5), capacity (10,10). -/
def c5node : Layout := .mk .Vert (Vec2.new 0 0) (Vec2.new 8 5) (Vec2.new 10 10) []

/-- C5 counterexample: resizing `c5node` to capacity (3,3) leaves
occupied = (8,5): 8 > 3 on x (the clamp uses the pre-resize share 10)
and 5 > 3 on y (y is never clamped). -/
theorem c5_resize_counterexample :
    ¬ ((c5node.resize (Vec2.new 3 3)).size.x ≤
        (c5node.resize (Vec2.new 3 3)).max_size.x ∧
       (c5node.resize (Vec2.new 3 3)).size.y ≤
        (c5node.resize (Vec2.new 3 3)).max_size.y) := by
  decide

/-- C5 (amended): after a resize, occupied.x is bounded by the x
component of the PRE-resize per-child share (not by the new capacity),
and occupied.y is left exactly unchanged (never clamped). -/
theorem c5_resize_bounds (l : Layout) (s : Vec2) :
    (l.resize s).size.x ≤ l.available_size.1.x ∧
    (l.resize s).size.y = l.size.y :=
  ⟨by rw [Layout.resize_size_x]; exact min_le_right _ _,
    Layout.resize_size_y l s⟩

/-- C6: a failing save at shutdown aborts the process through
`Result::unwrap` - it is not surfaced as a status message.  The claim
(and spec section 7) state the intended behaviour; the code panics. -/
theorem c6_save_failure_panics :
    mainShutdown (SaveResult.fail "unwritable file") = ProcessOutcome.panicked ∧
    mainShutdown (SaveResult.fail "unwritable file") ≠ ProcessOutcome.exited := by
  decide

/-- C7: receiving escape (27) in Edit mode leaves the main loop in Edit
mode regardless of whether a commit would succeed: only a newline can
exit Edit mode, so escape never returns the loop to Normal, contradicting
the claim and the in-source help text for escape. -/
theorem c7_escape_stays_in_edit_mode :
    editModeDispatch true 27 = Mode.Edit ∧
    editModeDispatch false 27 = Mode.Edit := by
  decide

/-- The builder state just before the closing `end_layout` refuting C8:
inside a Horz root of capacity (20,10), a first Vert child (occupied
(20,3), via one nested child and three `br`s) is already attached, and a
second Vert child (occupied (10,3)) is about to be closed. -/
def c8stack : Option (List Layout) :=
  UI.exec [Layout.new .Horz (Vec2.new 0 0) (Vec2.new 20 10)]
    [.beginL .Vert, .beginL .Vert, .endL, .brk, .brk, .brk, .endL,
     .beginL .Vert, .beginL .Vert, .endL, .brk, .brk, .brk]

/-- C8 counterexample: closing the second child of a HORZ parent whose
main-axis (x) extent shrank from the previous sibling's 20 to 10 blanks
NOTHING: the code keys the cleanup on the y component of the size
difference for every parent axis, not on the parent's main axis. -/
theorem c8_end_layout_counterexample :
    (c8stack.map (fun s => s.map (fun l =>
        (l.kind, l.size.x, l.children.map (fun c => c.size.x))))) =
      some [(.Vert, 10, [0]), (.Horz, 20, [20])] ∧
    (c8stack.bind (fun s => (UI.end_layout s).map Prod.snd)) = some none ∧
    ((10 : Int) < 20) := by
  decide

/-- C8 (amended): for ANY parent axis, `end_layout` blanks exactly when
the y component of (previous sibling's occupied size - closed child's
occupied size) is positive - the previous sibling's occupied y is
unaffected by the preceding resize - and then blanks that many rows at
the closed child's available position, `child.max_size.x` cells wide. -/
theorem c8_end_layout_blank_rule (child parent : Layout) (rest : List Layout)
    (prev : Layout) (h : parent.children.getLast? = some prev) :
    UI.end_layout (child :: parent :: rest) =
      some ((parent.add_child child).1 :: rest,
        if 0 < prev.size.y - child.size.y
        then some ⟨prev.size.y - child.size.y, child.available_pos, child.max_size.x⟩
        else none) := by
  have hsnd : (parent.add_child child).2
      = some ((prev.resize parent.available_size.1).size - child.size) := by
    rw [Layout.add_child_snd, Layout.getLast?_resizeAll, h]
    rfl
  rw [show UI.end_layout (child :: parent :: rest)
      = some ((parent.add_child child).1 :: rest,
          blankOf child (parent.add_child child).2) from rfl]
  rw [hsnd]
  rw [show blankOf child (some ((prev.resize parent.available_size.1).size - child.size))
      = if 0 < ((prev.resize parent.available_size.1).size - child.size).y
        then some ⟨((prev.resize parent.available_size.1).size - child.size).y,
          child.available_pos, child.max_size.x⟩
        else none from rfl]
  simp only [Vec2.sub_y, Layout.resize_size_y]

/-- A Vert parent with one finished sibling of occupied y = 4. -/
def w8prev : Layout := .mk .Vert (Vec2.new 0 0) (Vec2.new 3 4) (Vec2.new 6 6) []

/-- A Vert parent holding `w8prev` as its only child. -/
def w8parent : Layout :=
  .mk .Vert (Vec2.new 0 0) (Vec2.new 3 4) (Vec2.new 12 12) [w8prev]

/-- A shorter child (occupied y = 1) about to be closed. -/
def w8child : Layout := .mk .Vert (Vec2.new 0 4) (Vec2.new 2 1) (Vec2.new 6 6) []

/-- Witness for `c8_end_layout_blank_rule` at a concrete stack. -/
theorem c8_end_layout_blank_rule_witness :
    UI.end_layout (w8child :: w8parent :: []) =
      some ((w8parent.add_child w8child).1 :: [],
        if 0 < w8prev.size.y - w8child.size.y
        then some ⟨w8prev.size.y - w8child.size.y, w8child.available_pos,
          w8child.max_size.x⟩
        else none) :=
  c8_end_layout_blank_rule w8child w8parent [] w8prev rfl

/-- C9 counterexample: with a child scope still open (stack holds the
open child above the root), `end()` succeeds - it simply pops the child
- rather than failing: the only `expect` in `UI::end` concerns an empty
stack. -/
theorem c9_end_counterexample :
    UI.endRoot [Layout.new .Vert (Vec2.new 0 0) (Vec2.new 5 5),
        Layout.new .Vert (Vec2.new 0 0) (Vec2.new 10 10)] =
      some [Layout.new .Vert (Vec2.new 0 0) (Vec2.new 10 10)] ∧
    UI.endRoot [Layout.new .Vert (Vec2.new 0 0) (Vec2.new 5 5),
        Layout.new .Vert (Vec2.new 0 0) (Vec2.new 10 10)] ≠ none :=
  ⟨rfl, fun hc => Option.noConfusion hc⟩

/-- C9 (amended): `end()` pops whatever scope is topmost - including a
still-open child scope - without error; it fails only on an empty stack
(no begin at all). -/
theorem c9_end_pops_top :
    (∀ (l : Layout) (rest : List Layout), UI.endRoot (l :: rest) = some rest) ∧
    UI.endRoot ([] : List Layout) = none :=
  ⟨fun _ _ => rfl, rfl⟩

/-- C10: `edit_label` with `cursor_offset` at or past the end of the text
does not fail: it renders a blank highlighted cell, positioned
`prefix.length + cursor_offset` cells right of the scope's next
available position. -/
theorem c10_edit_label_out_of_bounds (l : Layout) (rest : List Layout)
    (text : List Char) (cur : Nat) (pfx : List Char)
    (h : text.length ≤ cur) :
    (UI.edit_label (l :: rest) text cur pfx).map
        (fun r => (r.2.cursorCell, r.2.cursorPos)) =
      some ([' '],
        Vec2.new (l.available_pos.x + ((pfx.length : Int) + (cur : Int)))
          l.available_pos.y) := by
  have hdrop : text.drop cur = [] := List.drop_eq_nil_of_le h
  simp only [UI.edit_label, hdrop, Option.map_some']
  rw [show l.available_pos.x + (cur : Int) + (pfx.length : Int)
      = l.available_pos.x + ((pfx.length : Int) + (cur : Int)) from by ring]

/-- Witness for `c10_edit_label_out_of_bounds`: text "ab", cursor 5. -/
theorem c10_edit_label_out_of_bounds_witness :
    (UI.edit_label ([Layout.new .Vert (Vec2.new 0 0) (Vec2.new 10 10)])
        ['a', 'b'] 5 ['-']).map (fun r => (r.2.cursorCell, r.2.cursorPos)) =
      some ([' '],
        Vec2.new ((Layout.new .Vert (Vec2.new 0 0) (Vec2.new 10 10)).available_pos.x
            + (((['-'] : List Char).length : Int) + ((5 : Nat) : Int)))
          (Layout.new .Vert (Vec2.new 0 0) (Vec2.new 10 10)).available_pos.y) :=
  c10_edit_label_out_of_bounds _ [] ['a', 'b'] 5 ['-'] (by decide)

end Todors
